import Mathlib

/-!
# Verification of `modules/module.py` (deadly_viz_challenge)

A shallow embedding of the eight helper functions of the module:
`cat_var`, `cause_types`, `cause_code`, `cause_name`, `row_filter`,
`nrow_filter`, `groupby_sum`, and `pivot_table`, together with proofs of
the behavioural properties stated in the specification.

Python strings are embedded as `List Char`; a pandas `DataFrame` is
embedded as a list of index-labelled rows over a schema of column names
(`DF` below).  Fallible operations (those that can raise `KeyError` /
`ValueError` / `IndexError`) return `Except String _` or `Option _`.
-/

namespace DeadlyViz

/-! ## Strings: `cause_types`, `cause_code`, `cause_name` -/

/-- Embedding of Python `str.split(" ", 1)`: split at the first occurrence
of the space character, at most once.  The result has one element when no
space occurs, and exactly two otherwise. -/
def pySplitSpace1 (s : List Char) : List (List Char) :=
  match s.dropWhile (· ≠ ' ') with
  | [] => [s]
  | _ :: rest => [s.takeWhile (· ≠ ' '), rest]

/-- Python whitespace characters stripped by `str.strip()` (ASCII range;
the mortality labels processed by the module are ASCII/Latin text). -/
def pyIsSpace (c : Char) : Bool :=
  c = ' ' || c = '\t' || c = '\n' || c = '\r' || c = '\x0b' || c = '\x0c'

/-- Embedding of Python `str.strip()`: drop leading and trailing
whitespace. -/
def pyStrip (s : List Char) : List Char :=
  ((s.dropWhile pyIsSpace).reverse.dropWhile pyIsSpace).reverse

/-- Embedding of `cause_code` (module.py line 49):
`text.split(" ", 1)[0]`.  The split list is never empty, so indexing with
`[0]` always succeeds. -/
def cause_code (text : List Char) : List Char :=
  (pySplitSpace1 text).headD []

/-- Embedding of `cause_name` (module.py line 58):
`text.split(" ", 1)[1].strip()`.  Indexing with `[1]` raises `IndexError`
when the string contains no space, modelled by `none`. -/
def cause_name (text : List Char) : Option (List Char) :=
  match pySplitSpace1 text with
  | [_, second] => some (pyStrip second)
  | _ => none

/-- Attempt to match the regular expression `\d+-\d+` at the start of `s`
(greedy, as Python `re` does; for this pattern greediness never needs
backtracking since a digit cannot also be the hyphen).  Returns the
matched token and the remainder of the string. -/
def matchRange (s : List Char) : Option (List Char × List Char) :=
  let d1 := s.takeWhile Char.isDigit
  let r1 := s.dropWhile Char.isDigit
  let d2 := r1.tail.takeWhile Char.isDigit
  if d1 ≠ [] ∧ r1.head? = some '-' ∧ d2 ≠ [] then
    some (d1 ++ '-' :: d2, r1.tail.dropWhile Char.isDigit)
  else none

/-- Embedding of Python `re.findall('\d+-\d+', s)`: scan left to right,
collecting non-overlapping matches, advancing one character when no match
starts at the current position. -/
def findallRange (s : List Char) : List (List Char) :=
  match s with
  | [] => []
  | c :: rest =>
    match h : matchRange (c :: rest) with
    | some (tok, rem) => tok :: findallRange rem
    | none => findallRange rest
termination_by s.length
decreasing_by
  · rename_i c
    unfold matchRange at h
    by_cases hcond : (c :: rest).takeWhile Char.isDigit ≠ [] ∧
        ((c :: rest).dropWhile Char.isDigit).head? = some '-' ∧
        ((c :: rest).dropWhile Char.isDigit).tail.takeWhile Char.isDigit ≠ []
    · rw [if_pos hcond] at h
      obtain ⟨hd1, hhd, _⟩ := hcond
      have hrem : rem = ((c :: rest).dropWhile Char.isDigit).tail.dropWhile Char.isDigit := by
        have hmap := congrArg (fun o => Option.map Prod.snd o) h
        simpa using hmap.symm
      have hlen1 : rem.length ≤ ((c :: rest).dropWhile Char.isDigit).tail.length := by
        rw [hrem]
        exact (List.dropWhile_suffix Char.isDigit).length_le
      have hsplit : (c :: rest).length =
          ((c :: rest).takeWhile Char.isDigit).length +
            ((c :: rest).dropWhile Char.isDigit).length := by
        have hlen := congrArg List.length
          ((c :: rest).takeWhile_append_dropWhile Char.isDigit)
        rw [List.length_append] at hlen
        exact hlen.symm
      have hpos : 0 < ((c :: rest).takeWhile Char.isDigit).length :=
        List.length_pos.mpr hd1
      have hdw : 0 < ((c :: rest).dropWhile Char.isDigit).length := by
        cases hh : (c :: rest).dropWhile Char.isDigit with
        | nil => rw [hh] at hhd; simp at hhd
        | cons a l => simp [hh]
      have htail : ((c :: rest).dropWhile Char.isDigit).tail.length =
          ((c :: rest).dropWhile Char.isDigit).length - 1 := List.length_tail _
      omega
    · rw [if_neg hcond] at h
      simp at h
  · simp

/-- Embedding of `cause_types` (module.py lines 35-40): classify a cause
label by whether `re.findall('\d+-\d+', cause)` found any match. -/
def cause_types (cause : List Char) : String :=
  if (findallRange cause).length = 0 then "Single cause" else "Multiple causes"

/-- Specification-side predicate: the string contains a token matching
"one or more digits, hyphen, one or more digits", i.e. it decomposes as
`a ++ d1 ++ '-' :: d2 ++ b` with `d1`, `d2` nonempty all-digit blocks. -/
def ContainsRangeToken (s : List Char) : Prop :=
  ∃ a d1 d2 b : List Char,
    s = a ++ d1 ++ '-' :: (d2 ++ b) ∧ d1 ≠ [] ∧ d2 ≠ [] ∧
      (∀ c ∈ d1, Char.isDigit c) ∧ (∀ c ∈ d2, Char.isDigit c)

/-! ## Tables

A pandas `DataFrame` is embedded as a schema (list of column names)
together with index-labelled rows.  Cell values (`Val`) are strings,
integers, or lists (the `values` column produced by `cat_var` holds the
array `df[col].unique()`); `vnan` is the missing-value marker produced by
out-of-schema access, which never arises on well-formed frames
(`DF.WF`). -/

inductive Val where
  | vstr : String → Val
  | vint : Int → Val
  | vlist : List Val → Val
  | vnan : Val

mutual

def Val.decEq : (a b : Val) → Decidable (a = b)
  | .vstr a, .vstr b =>
    match String.decEq a b with
    | isTrue h => isTrue (by rw [h])
    | isFalse h => isFalse (fun hh => h (Val.vstr.inj hh))
  | .vint a, .vint b =>
    match Int.decEq a b with
    | isTrue h => isTrue (by rw [h])
    | isFalse h => isFalse (fun hh => h (Val.vint.inj hh))
  | .vnan, .vnan => isTrue rfl
  | .vlist a, .vlist b =>
    match Val.decEqList a b with
    | isTrue h => isTrue (by rw [h])
    | isFalse h => isFalse (fun hh => h (Val.vlist.inj hh))
  | .vstr _, .vint _ => isFalse (fun h => Val.noConfusion h)
  | .vstr _, .vlist _ => isFalse (fun h => Val.noConfusion h)
  | .vstr _, .vnan => isFalse (fun h => Val.noConfusion h)
  | .vint _, .vstr _ => isFalse (fun h => Val.noConfusion h)
  | .vint _, .vlist _ => isFalse (fun h => Val.noConfusion h)
  | .vint _, .vnan => isFalse (fun h => Val.noConfusion h)
  | .vlist _, .vstr _ => isFalse (fun h => Val.noConfusion h)
  | .vlist _, .vint _ => isFalse (fun h => Val.noConfusion h)
  | .vlist _, .vnan => isFalse (fun h => Val.noConfusion h)
  | .vnan, .vstr _ => isFalse (fun h => Val.noConfusion h)
  | .vnan, .vint _ => isFalse (fun h => Val.noConfusion h)
  | .vnan, .vlist _ => isFalse (fun h => Val.noConfusion h)

def Val.decEqList : (a b : List Val) → Decidable (a = b)
  | [], [] => isTrue rfl
  | [], _ :: _ => isFalse (fun h => List.noConfusion h)
  | _ :: _, [] => isFalse (fun h => List.noConfusion h)
  | a :: as, b :: bs =>
    match Val.decEq a b, Val.decEqList as bs with
    | isTrue h1, isTrue h2 => isTrue (by rw [h1, h2])
    | isFalse h1, _ => isFalse (fun hh => h1 (List.cons.inj hh).1)
    | isTrue _, isFalse h2 => isFalse (fun hh => h2 (List.cons.inj hh).2)

end

instance : DecidableEq Val := Val.decEq

/-- Rank used to compare values of different constructors; a
well-formed, homogeneous column only ever compares within one
constructor (pandas raises `TypeError` otherwise).  `vnan` ranks lowest
so that a descending sort puts missing values last
(`na_position='last'`). -/
def Val.rank : Val → Nat
  | .vnan => 0
  | .vint _ => 1
  | .vstr _ => 2
  | .vlist _ => 3

/-- Lexicographic comparison of character lists (the order pandas uses on
a string column). -/
def strLeB : List Char → List Char → Bool
  | [], _ => true
  | _ :: _, [] => false
  | a :: as, b :: bs => if a = b then strLeB as bs else decide (a < b)

/-- Comparison of cell values: integers by integer order, strings
lexicographically, anything else by constructor rank. -/
def Val.leB : Val → Val → Bool
  | .vint a, .vint b => decide (a ≤ b)
  | .vstr a, .vstr b => strLeB a.data b.data
  | a, b => decide (a.rank ≤ b.rank)

/-- A row: a pandas integer index label plus the cell values, positionally
aligned with the schema. -/
abbrev Row := Nat × List Val

structure DF where
  cols : List String
  rows : List Row
deriving DecidableEq

/-- Well-formedness: every row has exactly one cell per schema column. -/
def DF.WF (df : DF) : Prop :=
  ∀ r ∈ df.rows, r.2.length = df.cols.length

/-- Cell access `df[k]` for one row: the value at the position of `k` in
the schema (`vnan` when the row is too short; `DF.WF` rules this out). -/
def cellD (cols : List String) (cells : List Val) (k : String) : Val :=
  (cells.get? (cols.findIdx (· == k))).getD Val.vnan

/-- Embedding of `reset_index(drop=True)`: relabel the rows `0,1,2,...`
keeping their order and cells. -/
def relabelFrom (n : Nat) : List Row → List Row
  | [] => []
  | r :: rs => (n, r.2) :: relabelFrom (n + 1) rs

def reset_index (df : DF) : DF :=
  ⟨df.cols, relabelFrom 0 df.rows⟩

/-- The sorting relation of `sort_values(by=k, ascending=False)`: row `p`
may precede row `q` when `q`'s key cell is `≤` `p`'s key cell. -/
def rowGe (cols : List String) (k : String) (p q : Row) : Prop :=
  Val.leB (cellD cols q.2 k) (cellD cols p.2 k) = true

instance (cols : List String) (k : String) : DecidableRel (rowGe cols k) :=
  fun p q => decEq _ _

/-- Embedding of `DataFrame.sort_values(by=k, ascending=False)`: a
descending sort on column `k`, index labels carried along.  pandas's
default `kind='quicksort'` fixes no order among tied keys (pandas
documents only mergesort/stable as stable), so this embedding is one
admissible refinement, resolving ties stably; the theorems below rely
only on properties shared by every correct descending sort (schema, row
multiset, sortedness), never on the tie order itself. -/
def sort_values (df : DF) (k : String) : DF :=
  ⟨df.cols, List.insertionSort (rowGe df.cols k) df.rows⟩

/-- Embedding of `pandas.Series.unique()`: the distinct values of a list
in order of first occurrence. -/
def uniqueAux {α : Type} [DecidableEq α] (seen : List α) : List α → List α
  | [] => []
  | a :: l => if a ∈ seen then uniqueAux seen l else a :: uniqueAux (a :: seen) l

def uniqueFirst {α : Type} [DecidableEq α] (l : List α) : List α :=
  uniqueAux [] l

/-- The values of column `k`, as `df[k]` produces them. -/
def column (df : DF) (k : String) : List Val :=
  df.rows.map (fun r => cellD df.cols r.2 k)

/-- Embedding of `cat_var` (module.py lines 6-26).  For each requested
column name, one record `{categorical_variable, number_of_possible_values,
values}` built from `df[col].unique()`; the records are assembled into a
fresh frame, sorted descending by cardinality and reindexed.  A missing
column raises `KeyError`. -/
def cat_record (df : DF) (col : String) : Except String Row :=
  if col ∈ df.cols then
    Except.ok ((⟨0, [Val.vstr col,
      Val.vint ((uniqueFirst (column df col)).length : Int),
      Val.vlist (uniqueFirst (column df col))]⟩ : Row))
  else Except.error ("KeyError: " ++ col)

def cat_var (df : DF) (cols : List String) : Except String DF :=
  match cols.mapM (cat_record df) with
  | Except.error e => Except.error e
  | Except.ok recs =>
    Except.ok (reset_index (sort_values
      ⟨["categorical_variable", "number_of_possible_values", "values"],
        relabelFrom 0 recs⟩ "number_of_possible_values"))

/-- Embedding of `row_filter` (module.py lines 63-74): keep the rows whose
`k`-cell is a member of `vs` (`Series.isin`), sort descending by
`"Total"`, reset the index.  `df[k]` and `sort_values(by='Total')` raise
`KeyError` when the named column is absent. -/
def row_filter (df : DF) (k : String) (vs : List Val) : Except String DF :=
  if k ∈ df.cols then
    if "Total" ∈ df.cols then
      Except.ok (reset_index (sort_values
        ⟨df.cols, df.rows.filter (fun r => cellD df.cols r.2 k ∈ vs)⟩ "Total"))
    else Except.error "KeyError: Total"
  else Except.error ("KeyError: " ++ k)

/-- Embedding of `nrow_filter` (module.py lines 76-87): same as
`row_filter` with the membership test negated (`~isin`). -/
def nrow_filter (df : DF) (k : String) (vs : List Val) : Except String DF :=
  if k ∈ df.cols then
    if "Total" ∈ df.cols then
      Except.ok (reset_index (sort_values
        ⟨df.cols, df.rows.filter (fun r => !(cellD df.cols r.2 k ∈ vs : Bool))⟩ "Total"))
    else Except.error "KeyError: Total"
  else Except.error ("KeyError: " ++ k)

instance {ε α : Type} [DecidableEq ε] [DecidableEq α] : DecidableEq (Except ε α) :=
  fun a b =>
    match a, b with
    | .ok x, .ok y =>
      match decEq x y with
      | isTrue h => isTrue (by rw [h])
      | isFalse h => isFalse (fun hh => h (Except.ok.inj hh))
    | .error e, .error f =>
      match decEq e f with
      | isTrue h => isTrue (by rw [h])
      | isFalse h => isFalse (fun hh => h (Except.error.inj hh))
    | .ok _, .error _ => isFalse (fun h => Except.noConfusion h)
    | .error _, .ok _ => isFalse (fun h => Except.noConfusion h)

/-- The integer content of a numeric cell (the `'sum'` aggregation of the
module is only ever applied to the numeric death-count column `"Total"`;
the theorems about it carry that typing as a hypothesis). -/
def valInt : Val → Int
  | .vint n => n
  | _ => 0

/-- Cell order as a relation, for sorting key values ascending. -/
def valLe (a b : Val) : Prop := Val.leB a b = true

instance : DecidableRel valLe := fun _ _ => decEq _ _

/-- Lexicographic order on group keys (pandas sorts the group keys of a
multi-column `groupby` lexicographically when `sort=True`, the default). -/
def keyLeB : List Val → List Val → Bool
  | [], _ => true
  | _ :: _, [] => false
  | a :: as, b :: bs => if a = b then keyLeB as bs else Val.leB a b

def keyLe (k1 k2 : List Val) : Prop := keyLeB k1 k2 = true

instance : DecidableRel keyLe := fun _ _ => decEq _ _

/-- The tuple of values a row takes at the grouping columns. -/
def keyOf (cols : List String) (gs : List String) (r : Row) : List Val :=
  gs.map (fun g => cellD cols r.2 g)

/-- The rows `groupby` actually groups: those whose grouping key has no
missing component.  pandas `groupby` silently drops rows whose group key
contains NaN (`dropna=True`, the default). -/
def gbKept (df : DF) (group_vars : List String) : List Row :=
  df.rows.filter (fun r => !(Val.vnan ∈ keyOf df.cols group_vars r : Bool))

/-- Embedding of `groupby_sum` (module.py lines 89-102):
`df.groupby(group_vars, as_index=False).agg({agg_var:'sum'})` followed by
a descending sort on `sort_var` and an index reset.  `groupby` raises
`ValueError` on an empty grouping list and `KeyError` on a missing
column; rows whose grouping key contains a missing value are dropped
(`dropna=True`, the pandas default); the grouping keys are the distinct
value tuples of the remaining rows, sorted ascending (`sort=True`
default), each with the sum of the aggregation column over its rows. -/
def groupby_sum (df : DF) (group_vars : List String)
    (agg_var : String := "Total") (sort_var : String := "Total") :
    Except String DF :=
  if group_vars = [] then Except.error "ValueError: No group keys passed!"
  else if (∀ g ∈ group_vars, g ∈ df.cols) ∧ agg_var ∈ df.cols then
    let keys := List.insertionSort keyLe
      (uniqueFirst ((gbKept df group_vars).map (keyOf df.cols group_vars)))
    let out : DF := ⟨group_vars ++ [agg_var],
      relabelFrom 0 (keys.map (fun key => (0, key ++
        [Val.vint ((((gbKept df group_vars).filter
            (fun r => keyOf df.cols group_vars r = key)).map
          (fun r => valInt (cellD df.cols r.2 agg_var))).sum)])))⟩
    if sort_var ∈ out.cols then
      Except.ok (reset_index (sort_values out sort_var))
    else Except.error ("KeyError: " ++ sort_var)
  else Except.error "KeyError"

/-- The wide frame produced by `pivot_table` after `reset_index()`: the
row-axis values form the leading column (named `xcol`), and each distinct
value of the spread column labels one value column.  A cell holds the
summed value column over the matching rows, or the missing-value marker
`NaN` (`none`) when no row matches. -/
structure Wide where
  xcol : String
  xvals : List Val
  spread : List Val
  cells : List (List (Option Int))
deriving DecidableEq

/-- The rows `pivot_table` actually aggregates: those whose row-axis and
spread cells are both non-missing.  pandas `pivot_table` drops rows whose
index or column key is NaN. -/
def pvKept (df : DF) (col : String) (x_axis : String) : List Row :=
  df.rows.filter (fun r => !(cellD df.cols r.2 x_axis = Val.vnan : Bool) &&
    !(cellD df.cols r.2 col = Val.vnan : Bool))

/-- Embedding of `pivot_table` (module.py lines 104-119):
`df.pivot_table(values=value, columns=col, index=x_axis, aggfunc='sum')`
followed by `reset_index()`.  Rows with a missing index or column key are
dropped; the remaining distinct index and column values are sorted
ascending (pandas sorts both pivot axes); cell `(i, j)` sums `value` over
the rows matching `(xvals[i], spread[j])`. -/
def pivot_table (df : DF) (col : String) (x_axis : String)
    (value : String := "Total") : Except String Wide :=
  if col ∈ df.cols ∧ x_axis ∈ df.cols ∧ value ∈ df.cols then
    Except.ok
      { xcol := x_axis
        xvals := List.insertionSort valLe (uniqueFirst
          ((pvKept df col x_axis).map (fun r => cellD df.cols r.2 x_axis)))
        spread := List.insertionSort valLe (uniqueFirst
          ((pvKept df col x_axis).map (fun r => cellD df.cols r.2 col)))
        cells := (List.insertionSort valLe (uniqueFirst
          ((pvKept df col x_axis).map (fun r => cellD df.cols r.2 x_axis)))).map
          (fun x => (List.insertionSort valLe (uniqueFirst
            ((pvKept df col x_axis).map (fun r => cellD df.cols r.2 col)))).map
            (fun c =>
              if hm : (pvKept df col x_axis).filter (fun r =>
                  cellD df.cols r.2 x_axis = x ∧ cellD df.cols r.2 col = c) = [] then
                none
              else
                some ((((pvKept df col x_axis).filter (fun r =>
                    cellD df.cols r.2 x_axis = x ∧ cellD df.cols r.2 col = c)).map
                  (fun r => valInt (cellD df.cols r.2 value))).sum))) }
  else Except.error "KeyError"

/-- All `"Total"` cells of the table hold integers (the death-count
column of the dataset). -/
def TotalsAreInt (df : DF) : Prop :=
  ∀ r ∈ df.rows, ∃ n : Int, cellD df.cols r.2 "Total" = Val.vint n

/-- A small concrete mortality-style frame used as a witness input. -/
def sexoDF : DF :=
  ⟨["Sexo", "Total"],
    [(0, [Val.vstr "H", Val.vint 3]), (1, [Val.vstr "M", Val.vint 5]),
     (2, [Val.vstr "T", Val.vint 4])]⟩

/-- The record built by `cat_var` for one column. -/
def catCells (df : DF) (col : String) : List Val :=
  [Val.vstr col,
    Val.vint ((uniqueFirst (column df col)).length : Int),
    Val.vlist (uniqueFirst (column df col))]

/-- A concrete frame with a repeated group value, for the `groupby_sum`
witness. -/
def sexoDupDF : DF :=
  ⟨["Sexo", "Total"],
    [(0, [Val.vstr "H", Val.vint 3]), (1, [Val.vstr "M", Val.vint 5]),
     (2, [Val.vstr "H", Val.vint 4])]⟩

/-- A concrete frame whose (row-axis, spread) combinations are complete,
for the `pivot_table` witness. -/
def periodoDF : DF :=
  ⟨["Periodo", "Sexo", "Total"],
    [(0, [Val.vstr "2019", Val.vstr "H", Val.vint 1]),
     (1, [Val.vstr "2019", Val.vstr "M", Val.vint 2]),
     (2, [Val.vstr "2020", Val.vstr "H", Val.vint 3]),
     (3, [Val.vstr "2020", Val.vstr "M", Val.vint 4])]⟩

/-- A frame whose single row has a missing grouping key: pandas
`groupby` drops such rows (`dropna=True`, the default), so their death
counts never reach the grouped output. -/
def nanGroupDF : DF :=
  ⟨["G", "Total"], [(0, [Val.vnan, Val.vint 5])]⟩

/-- A frame whose single row has a missing row-axis key: pandas
`pivot_table` drops such rows, so their death counts never reach the
pivoted cells. -/
def nanPivotDF : DF :=
  ⟨["Periodo", "Sexo", "Total"], [(0, [Val.vnan, Val.vstr "H", Val.vint 5])]⟩

/-! ## Theorems -/

theorem matchRange_nil : matchRange [] = none := by
  simp [matchRange]

theorem findallRange_nil : findallRange [] = [] := by
  unfold findallRange
  rfl

theorem findallRange_cons_some {c : Char} {rest tok rem : List Char}
    (h : matchRange (c :: rest) = some (tok, rem)) :
    findallRange (c :: rest) = tok :: findallRange rem := by
  rw [findallRange.eq_def]
  dsimp only
  split
  · rename_i tok' rem' h'
    rw [h] at h'
    cases h'
    rfl
  · rename_i h'
    rw [h] at h'
    cases h'

theorem findallRange_cons_none {c : Char} {rest : List Char}
    (h : matchRange (c :: rest) = none) :
    findallRange (c :: rest) = findallRange rest := by
  rw [findallRange.eq_def]
  dsimp only
  split
  · rename_i tok' rem' h'
    rw [h] at h'
    cases h'
  · rfl

theorem takeWhile_append_all {α : Type} {p : α → Bool} {xs : List α} (ys : List α)
    (h : ∀ x ∈ xs, p x = true) : (xs ++ ys).takeWhile p = xs ++ ys.takeWhile p := by
  induction xs with
  | nil => rfl
  | cons a l ih =>
    have ha : p a = true := h a (by simp)
    simp only [List.cons_append, List.takeWhile_cons, ha, if_true]
    rw [ih (fun x hx => h x (by simp [hx]))]

theorem dropWhile_append_all {α : Type} {p : α → Bool} {xs : List α} (ys : List α)
    (h : ∀ x ∈ xs, p x = true) : (xs ++ ys).dropWhile p = ys.dropWhile p := by
  induction xs with
  | nil => rfl
  | cons a l ih =>
    have ha : p a = true := h a (by simp)
    simp only [List.cons_append, List.dropWhile_cons, ha, if_true]
    exact ih (fun x hx => h x (by simp [hx]))

theorem matchRange_some_of_token {d1 d2 b : List Char}
    (h1 : d1 ≠ []) (h2 : d2 ≠ [])
    (hd1 : ∀ c ∈ d1, Char.isDigit c) (hd2 : ∀ c ∈ d2, Char.isDigit c) :
    matchRange (d1 ++ '-' :: (d2 ++ b)) ≠ none := by
  have hdash : Char.isDigit '-' = false := by decide
  have htw : (d1 ++ '-' :: (d2 ++ b)).takeWhile Char.isDigit = d1 := by
    rw [takeWhile_append_all _ hd1]
    simp [List.takeWhile_cons, hdash]
  have hdw : (d1 ++ '-' :: (d2 ++ b)).dropWhile Char.isDigit = '-' :: (d2 ++ b) := by
    rw [dropWhile_append_all _ hd1]
    simp [List.dropWhile_cons, hdash]
  have htw2 : (d2 ++ b).takeWhile Char.isDigit = d2 ++ b.takeWhile Char.isDigit :=
    takeWhile_append_all _ hd2
  unfold matchRange
  rw [if_pos]
  · simp
  · refine ⟨?_, ?_, ?_⟩
    · rw [htw]
      exact h1
    · rw [hdw]
      rfl
    · rw [hdw]
      simp only [List.tail_cons, htw2]
      intro hcontra
      exact h2 (List.append_eq_nil.mp hcontra).1

theorem containsRangeToken_of_matchRange {s tok rem : List Char}
    (h : matchRange s = some (tok, rem)) : ContainsRangeToken s := by
  unfold matchRange at h
  by_cases hc : s.takeWhile Char.isDigit ≠ [] ∧
      (s.dropWhile Char.isDigit).head? = some '-' ∧
      (s.dropWhile Char.isDigit).tail.takeWhile Char.isDigit ≠ []
  · obtain ⟨hd1, hhd, hd2⟩ := hc
    rcases hdw : s.dropWhile Char.isDigit with _ | ⟨c, t⟩
    · rw [hdw] at hhd
      cases hhd
    · have hc' : c = '-' := by
        rw [hdw] at hhd
        simpa using hhd
      subst hc'
      rw [hdw] at hd2
      simp only [List.tail_cons] at hd2
      refine ⟨[], s.takeWhile Char.isDigit, t.takeWhile Char.isDigit,
        t.dropWhile Char.isDigit, ?_, hd1, hd2, ?_, ?_⟩
      · rw [List.nil_append]
        conv_lhs => rw [← s.takeWhile_append_dropWhile Char.isDigit]
        rw [hdw, t.takeWhile_append_dropWhile Char.isDigit]
      · intro x hx
        exact List.mem_takeWhile_imp hx
      · intro x hx
        exact List.mem_takeWhile_imp hx
  · rw [if_neg hc] at h
    cases h

theorem containsRangeToken_of_findall {s : List Char}
    (h : findallRange s ≠ []) : ContainsRangeToken s := by
  induction s with
  | nil => rw [findallRange_nil] at h; exact absurd rfl h
  | cons c rest ih =>
    rcases hm : matchRange (c :: rest) with _ | ⟨tok, rem⟩
    · rw [findallRange_cons_none hm] at h
      obtain ⟨a, d1, d2, b, heq, h1, h2, hd1, hd2⟩ := ih h
      exact ⟨c :: a, d1, d2, b, by rw [heq]; rfl, h1, h2, hd1, hd2⟩
    · exact containsRangeToken_of_matchRange hm

theorem findall_ne_nil_of_token {s : List Char}
    (h : ContainsRangeToken s) : findallRange s ≠ [] := by
  obtain ⟨a, d1, d2, b, heq, h1, h2, hd1, hd2⟩ := h
  subst heq
  induction a with
  | nil =>
    rw [List.nil_append]
    rcases hm : matchRange (d1 ++ '-' :: (d2 ++ b)) with _ | ⟨tok, rem⟩
    · exact absurd hm (matchRange_some_of_token h1 h2 hd1 hd2)
    · rcases hd : d1 ++ '-' :: (d2 ++ b) with _ | ⟨c, rest⟩
      · rcases d1 with _ | ⟨x, xs⟩
        · exact absurd rfl h1
        · cases hd
      · rw [hd] at hm
        rw [findallRange_cons_some hm]
        simp
  | cons x a' ih =>
    rcases hm : matchRange (x :: a' ++ d1 ++ '-' :: (d2 ++ b)) with _ | ⟨tok, rem⟩
    · have hstep : (x :: a') ++ d1 ++ '-' :: (d2 ++ b) =
          x :: (a' ++ d1 ++ '-' :: (d2 ++ b)) := by simp
      rw [hstep, findallRange_cons_none (by rw [← hstep]; exact hm)]
      exact ih
    · have hstep : (x :: a') ++ d1 ++ '-' :: (d2 ++ b) =
          x :: (a' ++ d1 ++ '-' :: (d2 ++ b)) := by simp
      rw [hstep, findallRange_cons_some (by rw [← hstep]; exact hm)]
      simp

/-- C1: `cause_types` returns `"Multiple causes"` exactly when the input
contains a token matching "one or more digits, hyphen, one or more
digits", returns `"Single cause"` otherwise, and never returns any other
value. -/
theorem C1_cause_types_classifies (s : List Char) :
    (cause_types s = "Multiple causes" ↔ ContainsRangeToken s) ∧
    (cause_types s = "Single cause" ↔ ¬ ContainsRangeToken s) ∧
    (cause_types s = "Multiple causes" ∨ cause_types s = "Single cause") := by
  have hne : ("Multiple causes" : String) ≠ "Single cause" := by decide
  unfold cause_types
  by_cases h : (findallRange s).length = 0
  · have hnil : findallRange s = [] := List.length_eq_zero.mp h
    have hnotok : ¬ ContainsRangeToken s := fun htok =>
      findall_ne_nil_of_token htok hnil
    rw [if_pos h]
    exact ⟨⟨fun hh => absurd hh.symm hne, fun hh => absurd hh hnotok⟩,
      ⟨fun _ => hnotok, fun _ => rfl⟩, Or.inr rfl⟩
  · have hnnil : findallRange s ≠ [] := fun hh => h (by rw [hh]; rfl)
    have htok : ContainsRangeToken s := containsRangeToken_of_findall hnnil
    rw [if_neg h]
    exact ⟨⟨fun _ => htok, fun _ => rfl⟩,
      ⟨fun hh => absurd hh hne, fun hh => absurd htok hh⟩, Or.inl rfl⟩

theorem cause_code_eq_takeWhile (s : List Char) :
    cause_code s = s.takeWhile (· ≠ ' ') := by
  unfold cause_code pySplitSpace1
  rcases hd : s.dropWhile (· ≠ ' ') with _ | ⟨c, rest⟩
  · have := s.takeWhile_append_dropWhile (fun c => decide (c ≠ ' '))
    rw [hd, List.append_nil] at this
    simpa using this.symm
  · rfl

theorem space_not_mem_takeWhile (s : List Char) : ' ' ∉ s.takeWhile (· ≠ ' ') := by
  intro hmem
  have := List.mem_takeWhile_imp hmem
  simp at this

theorem cause_code_of_no_space {s : List Char} (h : ' ' ∉ s) : cause_code s = s := by
  rw [cause_code_eq_takeWhile]
  apply List.takeWhile_eq_self_iff.mpr
  intro x hx
  simp only [decide_eq_true_eq]
  intro hsp
  exact h (hsp ▸ hx)

theorem cause_name_of_no_space {s : List Char} (h : ' ' ∉ s) : cause_name s = none := by
  unfold cause_name pySplitSpace1
  have hd : s.dropWhile (· ≠ ' ') = [] := by
    apply List.dropWhile_eq_nil_iff.mpr
    intro x hx
    simp only [decide_eq_true_eq]
    intro hsp
    exact h (hsp ▸ hx)
  rw [hd]

/-- C2 counterexample: the separator recognised by `cause_code` /
`cause_name` is the space character only, not arbitrary whitespace.  On
`"a\tb"` (tab separator, which IS whitespace) the claim demands
`cause_code = "a"` and `cause_name = "b"`, but the code returns the whole
string and fails (`IndexError`), respectively. -/
theorem C2_counterexample :
    ¬ (cause_code ('a' :: '\t' :: 'b' :: []) = ['a'] ∧
       cause_name ('a' :: '\t' :: 'b' :: []) = some ['b']) := by
  decide

/-- C2 (amended): for every input string containing a SPACE character,
`cause_code` and `cause_name` split the string at the first space: writing
the input as `a ++ ' ' :: b` with `a` space-free, `cause_code` returns `a`
verbatim and `cause_name` returns `b` with leading and trailing whitespace
trimmed. -/
theorem C2_cause_split_first_space (s a b : List Char)
    (ha : ' ' ∉ a) (heq : s = a ++ ' ' :: b) :
    cause_code s = a ∧ cause_name s = some (pyStrip b) := by
  have hall : ∀ x ∈ a, (fun c => decide (c ≠ ' ')) x = true := by
    intro x hx
    simp only [decide_eq_true_eq]
    intro hsp
    exact ha (hsp ▸ hx)
  have htw : s.takeWhile (· ≠ ' ') = a := by
    rw [heq, takeWhile_append_all _ hall]
    simp [List.takeWhile_cons]
  have hdw : s.dropWhile (· ≠ ' ') = ' ' :: b := by
    rw [heq, dropWhile_append_all _ hall]
    simp [List.dropWhile_cons]
  constructor
  · rw [cause_code_eq_takeWhile, htw]
  · unfold cause_name pySplitSpace1
    rw [hdw]

/-- C2 witness at the documented example input. -/
theorem C2_cause_split_first_space_witness :
    (' ' ∉ "001-102".toList) ∧
    ("001-102 I-XXII.Todas las causas".toList =
      "001-102".toList ++ ' ' :: "I-XXII.Todas las causas".toList) ∧
    cause_code "001-102 I-XXII.Todas las causas".toList = "001-102".toList ∧
    cause_name "001-102 I-XXII.Todas las causas".toList =
      some (pyStrip "I-XXII.Todas las causas".toList) :=
  ⟨by decide, by decide,
    C2_cause_split_first_space _ _ _ (by decide) (by decide)⟩

/-- C10: `cause_code` is idempotent, and on space-free input it returns
the input unchanged while `cause_name` fails (returns `none`). -/
theorem C10_cause_code_idempotent_total (s : List Char) :
    cause_code (cause_code s) = cause_code s ∧
    (' ' ∉ s → cause_code s = s ∧ cause_name s = none) := by
  constructor
  · apply cause_code_of_no_space
    rw [cause_code_eq_takeWhile]
    exact space_not_mem_takeWhile s
  · intro h
    exact ⟨cause_code_of_no_space h, cause_name_of_no_space h⟩

/-- C10 witness: a concrete space-free input. -/
theorem C10_witness :
    (' ' ∉ "I.Algunas_causas".toList) ∧
    cause_code "I.Algunas_causas".toList = "I.Algunas_causas".toList ∧
    cause_name "I.Algunas_causas".toList = none :=
  ⟨by decide, (C10_cause_code_idempotent_total "I.Algunas_causas".toList).2 (by decide)⟩

theorem strLeB_total (a b : List Char) : strLeB a b = true ∨ strLeB b a = true := by
  induction a generalizing b with
  | nil => exact Or.inl rfl
  | cons x xs ih =>
    cases b with
    | nil => exact Or.inr rfl
    | cons y ys =>
      by_cases hxy : x = y
      · subst hxy
        simpa only [strLeB, if_pos rfl] using ih ys
      · rcases lt_or_gt_of_ne hxy with hlt | hgt
        · exact Or.inl (by simp [strLeB, hxy, hlt])
        · exact Or.inr (by simp [strLeB, Ne.symm hxy, hgt])

theorem strLeB_trans {a b c : List Char} (hab : strLeB a b = true)
    (hbc : strLeB b c = true) : strLeB a c = true := by
  induction a generalizing b c with
  | nil => rfl
  | cons x xs ih =>
    cases b with
    | nil => simp [strLeB] at hab
    | cons y ys =>
      cases c with
      | nil => simp [strLeB] at hbc
      | cons z zs =>
        by_cases hxy : x = y <;> by_cases hyz : y = z
        · subst hxy; subst hyz
          rw [strLeB, if_pos rfl] at hab hbc ⊢
          exact ih hab hbc
        · subst hxy
          rw [strLeB, if_neg hyz] at hbc ⊢
          exact hbc
        · subst hyz
          rw [strLeB, if_neg hxy] at hab ⊢
          exact hab
        · rw [strLeB, if_neg hxy] at hab
          rw [strLeB, if_neg hyz] at hbc
          have hxz : x < z :=
            lt_trans (of_decide_eq_true hab) (of_decide_eq_true hbc)
          rw [strLeB, if_neg (ne_of_lt hxz)]
          exact decide_eq_true hxz

theorem strLeB_refl (a : List Char) : strLeB a a = true := by
  induction a with
  | nil => rfl
  | cons x xs ih => rw [strLeB, if_pos rfl]; exact ih

theorem Val.leB_total (a b : Val) : a.leB b = true ∨ b.leB a = true := by
  cases a <;> cases b <;>
    simp only [Val.leB, Val.rank, decide_eq_true_eq] <;>
    first
      | exact strLeB_total _ _
      | exact le_total _ _
      | omega
      | trivial

theorem Val.leB_trans {a b c : Val} (hab : a.leB b = true) (hbc : b.leB c = true) :
    a.leB c = true := by
  cases a <;> cases b <;> cases c <;>
    simp only [Val.leB, Val.rank, decide_eq_true_eq] at hab hbc ⊢ <;>
    first
      | exact strLeB_trans hab hbc
      | exact le_trans hab hbc
      | omega
      | trivial

theorem Val.leB_refl (a : Val) : a.leB a = true := by
  cases a <;>
    simp only [Val.leB, Val.rank, decide_eq_true_eq] <;>
    first
      | exact strLeB_refl _
      | exact le_refl _
      | omega
      | trivial

/-! ## Properties of `uniqueFirst` (pandas `Series.unique`) -/

theorem mem_uniqueAux {α : Type} [DecidableEq α] {x : α} :
    ∀ {seen l : List α}, x ∈ uniqueAux seen l ↔ x ∈ l ∧ x ∉ seen := by
  intro seen l
  induction l generalizing seen with
  | nil => simp [uniqueAux]
  | cons a t ih =>
    by_cases ha : a ∈ seen
    · rw [uniqueAux, if_pos ha, ih]
      constructor
      · exact fun ⟨hx, hs⟩ => ⟨List.mem_cons_of_mem a hx, hs⟩
      · rintro ⟨hx, hs⟩
        rcases List.mem_cons.mp hx with rfl | hx
        · exact absurd ha hs
        · exact ⟨hx, hs⟩
    · rw [uniqueAux, if_neg ha]
      simp only [List.mem_cons, ih, List.mem_cons]
      constructor
      · rintro (rfl | ⟨hx, hs⟩)
        · exact ⟨Or.inl rfl, ha⟩
        · exact ⟨Or.inr hx, fun hh => hs (Or.inr hh)⟩
      · rintro ⟨rfl | hx, hs⟩
        · exact Or.inl rfl
        · by_cases hxa : x = a
          · exact Or.inl hxa
          · exact Or.inr ⟨hx, fun hh => hh.elim hxa hs⟩

theorem mem_uniqueFirst {α : Type} [DecidableEq α] {x : α} {l : List α} :
    x ∈ uniqueFirst l ↔ x ∈ l := by
  rw [uniqueFirst, mem_uniqueAux]
  simp

theorem nodup_uniqueAux {α : Type} [DecidableEq α] :
    ∀ (seen l : List α), (uniqueAux seen l).Nodup := by
  intro seen l
  induction l generalizing seen with
  | nil => exact List.nodup_nil
  | cons a t ih =>
    by_cases ha : a ∈ seen
    · rw [uniqueAux, if_pos ha]
      exact ih seen
    · rw [uniqueAux, if_neg ha]
      refine List.nodup_cons.mpr ⟨?_, ih (a :: seen)⟩
      intro hmem
      exact (mem_uniqueAux.mp hmem).2 (List.mem_cons_self a seen)

theorem nodup_uniqueFirst {α : Type} [DecidableEq α] (l : List α) :
    (uniqueFirst l).Nodup :=
  nodup_uniqueAux [] l

theorem toFinset_uniqueFirst {α : Type} [DecidableEq α] (l : List α) :
    (uniqueFirst l).toFinset = l.toFinset := by
  ext x
  simp [List.mem_toFinset, mem_uniqueFirst]

theorem length_uniqueFirst {α : Type} [DecidableEq α] (l : List α) :
    (uniqueFirst l).length = l.toFinset.card := by
  rw [← List.toFinset_card_of_nodup (nodup_uniqueFirst l), toFinset_uniqueFirst]

/-! ## Properties of `relabelFrom` / `reset_index` -/

theorem relabelFrom_map_snd (n : Nat) :
    ∀ rs : List Row, (relabelFrom n rs).map Prod.snd = rs.map Prod.snd := by
  intro rs
  induction rs generalizing n with
  | nil => rfl
  | cons r t ih => simp [relabelFrom, ih]

theorem relabelFrom_map_fst (n : Nat) :
    ∀ rs : List Row, (relabelFrom n rs).map Prod.fst = List.range' n rs.length := by
  intro rs
  induction rs generalizing n with
  | nil => rfl
  | cons r t ih => simp [relabelFrom, List.range', ih]

theorem relabelFrom_length (n : Nat) :
    ∀ rs : List Row, (relabelFrom n rs).length = rs.length := by
  intro rs
  induction rs generalizing n with
  | nil => rfl
  | cons r t ih => simp [relabelFrom, ih]

theorem relabelFrom_relabelFrom (n : Nat) :
    ∀ rs : List Row, relabelFrom n (relabelFrom n rs) = relabelFrom n rs := by
  intro rs
  induction rs generalizing n with
  | nil => rfl
  | cons r t ih => simp [relabelFrom, ih]

/-! ## Sum over a partition by key -/

theorem sum_filter_split {α : Type} (p : α → Bool) (f : α → Int) :
    ∀ l : List α,
      ((l.filter p).map f).sum + ((l.filter (fun x => !p x)).map f).sum =
        (l.map f).sum := by
  intro l
  induction l with
  | nil => rfl
  | cons a t ih =>
    cases hpa : p a
    · simp [List.filter_cons, hpa]
      omega
    · simp [List.filter_cons, hpa]
      omega

theorem sum_partition {α κ : Type} [DecidableEq κ] (key : α → κ) (f : α → Int) :
    ∀ (ks : List κ) (l : List α), ks.Nodup → (∀ x ∈ l, key x ∈ ks) →
      (ks.map (fun k => ((l.filter (fun x => key x = k)).map f).sum)).sum =
        (l.map f).sum := by
  intro ks
  induction ks with
  | nil =>
    intro l _ hcov
    cases l with
    | nil => rfl
    | cons a t => exact absurd (hcov a (List.mem_cons_self a t)) (List.not_mem_nil _)
  | cons k ks ih =>
    intro l hnd hcov
    have hnd' : ks.Nodup := (List.nodup_cons.mp hnd).2
    have hknotin : k ∉ ks := (List.nodup_cons.mp hnd).1
    have hrest : ∀ k' ∈ ks,
        (l.filter (fun x => key x = k')) =
          ((l.filter (fun x => !(key x = k : Bool))).filter (fun x => key x = k')) := by
      intro k' hk'
      rw [List.filter_filter]
      apply List.filter_congr
      intro x _
      by_cases hx : key x = k'
      · have hkk : k' ≠ k := fun hh => hknotin (hh ▸ hk')
        simp [hx, hkk]
      · simp [hx]
    have hcov' : ∀ x ∈ l.filter (fun x => !(key x = k : Bool)), key x ∈ ks := by
      intro x hx
      have hmem := List.mem_filter.mp hx
      have hne : key x ≠ k := by simpa using hmem.2
      exact (List.mem_cons.mp (hcov x hmem.1)).resolve_left hne
    have hmapeq :
        (ks.map (fun k' => ((l.filter (fun x => key x = k')).map f).sum)) =
          (ks.map (fun k' =>
            (((l.filter (fun x => !(key x = k : Bool))).filter
              (fun x => key x = k')).map f).sum)) := by
      apply List.map_congr_left
      intro k' hk'
      rw [hrest k' hk']
    rw [List.map_cons, List.sum_cons, hmapeq, ih _ hnd' hcov',
      sum_filter_split (fun x => (key x = k : Bool)) f l]

/-! ## Properties of `sort_values` -/

theorem rowGe_total (cols : List String) (k : String) (p q : Row) :
    rowGe cols k p q ∨ rowGe cols k q p :=
  Val.leB_total (cellD cols q.2 k) (cellD cols p.2 k)

theorem rowGe_trans (cols : List String) (k : String) {p q r : Row}
    (h1 : rowGe cols k p q) (h2 : rowGe cols k q r) : rowGe cols k p r :=
  Val.leB_trans h2 h1

theorem sort_values_cols (df : DF) (k : String) : (sort_values df k).cols = df.cols :=
  rfl

theorem sort_values_perm (df : DF) (k : String) :
    List.Perm (sort_values df k).rows df.rows :=
  List.perm_insertionSort _ _

theorem sort_values_sorted (df : DF) (k : String) :
    List.Sorted (rowGe df.cols k) (sort_values df k).rows := by
  haveI : IsTotal Row (rowGe df.cols k) := ⟨fun p q => rowGe_total df.cols k p q⟩
  haveI : IsTrans Row (rowGe df.cols k) := ⟨fun _ _ _ h1 h2 => rowGe_trans df.cols k h1 h2⟩
  exact List.sorted_insertionSort _ _

/-! ## C9: missing columns raise errors -/

theorem mapM_error_of_mem {α β : Type} (f : α → Except String β) :
    ∀ (l : List α) (x : α), x ∈ l → (∀ y, f x ≠ Except.ok y) →
      ∃ e, l.mapM f = Except.error e := by
  intro l
  induction l with
  | nil =>
    intro x hx
    exact absurd hx (List.not_mem_nil x)
  | cons a t ih =>
    intro x hx hfx
    rw [List.mapM_cons]
    cases hfa : f a with
    | error e => exact ⟨e, rfl⟩
    | ok v =>
      rcases List.mem_cons.mp hx with rfl | hxt
      · exact absurd hfa (hfx v)
      · obtain ⟨e, he⟩ := ih x hxt hfx
        refine ⟨e, ?_⟩
        simp only [he]
        rfl

/-- C9: when `K` is not a column of the table, `cat_var` (with `K` among
the requested columns), `row_filter`, `nrow_filter`, and `groupby_sum`
(with `K` among the grouping columns) all fail with an error instead of
returning a table. -/
theorem C9_missing_column_errors (df : DF) (K : String) (hK : K ∉ df.cols) :
    (∀ C : List String, K ∈ C → (cat_var df C).isOk = false) ∧
    (∀ vs : List Val, (row_filter df K vs).isOk = false) ∧
    (∀ vs : List Val, (nrow_filter df K vs).isOk = false) ∧
    (∀ (G : List String) (a s : String), K ∈ G → (groupby_sum df G a s).isOk = false) := by
  refine ⟨?_, ?_, ?_, ?_⟩
  · intro C hKC
    unfold cat_var
    obtain ⟨e, he⟩ := mapM_error_of_mem (cat_record df) C K hKC
      (by intro y; unfold cat_record; rw [if_neg hK]; exact fun hh => Except.noConfusion hh)
    rw [he]
    rfl
  · intro vs
    unfold row_filter
    rw [if_neg hK]
    rfl
  · intro vs
    unfold nrow_filter
    rw [if_neg hK]
    rfl
  · intro G a s hKG
    unfold groupby_sum
    have hG : G ≠ [] := fun hh => List.not_mem_nil K (hh ▸ hKG)
    rw [if_neg hG, if_neg]
    · rfl
    · intro hand
      exact hK (hand.1 K hKG)

/-- C9 witness: a concrete one-column table and an absent column name. -/
theorem C9_missing_column_errors_witness :
    ("z" ∉ (DF.mk ["a"] []).cols) ∧
    (cat_var (DF.mk ["a"] []) ["z"]).isOk = false ∧
    (row_filter (DF.mk ["a"] []) "z" []).isOk = false ∧
    (nrow_filter (DF.mk ["a"] []) "z" []).isOk = false ∧
    (groupby_sum (DF.mk ["a"] []) ["z"] "Total" "Total").isOk = false := by
  have h := C9_missing_column_errors (DF.mk ["a"] []) "z" (by decide)
  exact ⟨by decide, h.1 ["z"] (by decide), h.2.1 [], h.2.2.1 [],
    h.2.2.2 ["z"] "Total" "Total" (by decide)⟩

/-! ## C5 / C6: row_filter and nrow_filter -/

theorem row_filter_eq {df : DF} {k : String} (vs : List Val)
    (hk : k ∈ df.cols) (ht : "Total" ∈ df.cols) :
    row_filter df k vs = Except.ok (reset_index (sort_values
      ⟨df.cols, df.rows.filter (fun r => cellD df.cols r.2 k ∈ vs)⟩ "Total")) := by
  unfold row_filter
  rw [if_pos hk, if_pos ht]

theorem nrow_filter_eq {df : DF} {k : String} (vs : List Val)
    (hk : k ∈ df.cols) (ht : "Total" ∈ df.cols) :
    nrow_filter df k vs = Except.ok (reset_index (sort_values
      ⟨df.cols, df.rows.filter (fun r => !(cellD df.cols r.2 k ∈ vs : Bool))⟩ "Total")) := by
  unfold nrow_filter
  rw [if_pos hk, if_pos ht]

theorem mem_relabelFrom_snd {n : Nat} {rs : List Row} {s : Row}
    (h : s ∈ relabelFrom n rs) : s.2 ∈ rs.map Prod.snd := by
  induction rs generalizing n with
  | nil => exact absurd h (List.not_mem_nil s)
  | cons r t ih =>
    rcases List.mem_cons.mp h with rfl | hmem
    · exact List.mem_cons_self _ _
    · exact List.mem_cons_of_mem _ (ih hmem)

theorem sorted_relabelFrom {cols : List String} {k : String} {rs : List Row}
    (h : List.Sorted (rowGe cols k) rs) (n : Nat) :
    List.Sorted (rowGe cols k) (relabelFrom n rs) := by
  induction rs generalizing n with
  | nil => exact List.sorted_nil
  | cons r t ih =>
    obtain ⟨hhead, htail⟩ := List.sorted_cons.mp h
    refine List.sorted_cons.mpr ⟨?_, ih htail (n + 1)⟩
    intro s hs
    obtain ⟨orig, horig, hsnd⟩ := List.mem_map.mp (mem_relabelFrom_snd hs)
    have := hhead orig horig
    unfold rowGe at this ⊢
    rw [hsnd] at this
    exact this

/-- Every output frame of `row_filter` has the input schema, carries
exactly the input rows passing the membership test (as a stable
permutation), and is sorted; packaged for the theorems below. -/
theorem row_filter_shape {df : DF} {k : String} {vs : List Val} {A : DF}
    (hk : k ∈ df.cols) (ht : "Total" ∈ df.cols)
    (hA : row_filter df k vs = Except.ok A) :
    A.cols = df.cols ∧
    List.Perm (A.rows.map Prod.snd)
      ((df.rows.filter (fun r => cellD df.cols r.2 k ∈ vs)).map Prod.snd) ∧
    List.Sorted (rowGe df.cols "Total") A.rows := by
  rw [row_filter_eq vs hk ht] at hA
  have hAeq : A = reset_index (sort_values
      ⟨df.cols, df.rows.filter (fun r => cellD df.cols r.2 k ∈ vs)⟩ "Total") :=
    (Except.ok.inj hA).symm
  subst hAeq
  refine ⟨rfl, ?_, ?_⟩
  · rw [reset_index, relabelFrom_map_snd]
    exact (sort_values_perm _ "Total").map Prod.snd
  · simp only [reset_index]
    exact sorted_relabelFrom (sort_values_sorted
      (DF.mk df.cols (df.rows.filter (fun r => cellD df.cols r.2 k ∈ vs))) "Total") 0

theorem nrow_filter_shape {df : DF} {k : String} {vs : List Val} {B : DF}
    (hk : k ∈ df.cols) (ht : "Total" ∈ df.cols)
    (hB : nrow_filter df k vs = Except.ok B) :
    B.cols = df.cols ∧
    List.Perm (B.rows.map Prod.snd)
      ((df.rows.filter (fun r => !(cellD df.cols r.2 k ∈ vs : Bool))).map Prod.snd) ∧
    List.Sorted (rowGe df.cols "Total") B.rows := by
  rw [nrow_filter_eq vs hk ht] at hB
  have hBeq : B = reset_index (sort_values
      ⟨df.cols, df.rows.filter (fun r => !(cellD df.cols r.2 k ∈ vs : Bool))⟩ "Total") :=
    (Except.ok.inj hB).symm
  subst hBeq
  refine ⟨rfl, ?_, ?_⟩
  · rw [reset_index, relabelFrom_map_snd]
    exact (sort_values_perm _ "Total").map Prod.snd
  · simp only [reset_index]
    exact sorted_relabelFrom (sort_values_sorted
      (DF.mk df.cols (df.rows.filter (fun r => !(cellD df.cols r.2 k ∈ vs : Bool)))) "Total") 0

/-- C5: on a table with columns `k` and `"Total"`, the rows kept by
`row_filter` and by `nrow_filter` are disjoint, together they are exactly
the input rows (as multisets of cell tuples; on a well-formed frame every
`k`-cell is defined), and each output is sorted descending by the
`"Total"` column. -/
theorem C5_filters_partition (df : DF) (k : String) (vs : List Val) (A B : DF)
    (hk : k ∈ df.cols) (ht : "Total" ∈ df.cols) (hwf : df.WF)
    (hint : TotalsAreInt df)
    (hA : row_filter df k vs = Except.ok A)
    (hB : nrow_filter df k vs = Except.ok B) :
    List.Perm (A.rows.map Prod.snd ++ B.rows.map Prod.snd) (df.rows.map Prod.snd) ∧
    (∀ cs : List Val, cs ∈ A.rows.map Prod.snd → cs ∉ B.rows.map Prod.snd) ∧
    A.rows.Pairwise (fun r s => valInt (cellD df.cols s.2 "Total") ≤
      valInt (cellD df.cols r.2 "Total")) ∧
    B.rows.Pairwise (fun r s => valInt (cellD df.cols s.2 "Total") ≤
      valInt (cellD df.cols r.2 "Total")) := by
  obtain ⟨hAc, hAp, hAs⟩ := row_filter_shape hk ht hA
  obtain ⟨hBc, hBp, hBs⟩ := nrow_filter_shape hk ht hB
  have hsplit := List.filter_append_perm
    (fun r => (cellD df.cols r.2 k ∈ vs : Bool)) df.rows
  refine ⟨?_, ?_, ?_, ?_⟩
  · refine (hAp.append hBp).trans ?_
    rw [← List.map_append]
    exact hsplit.map Prod.snd
  · intro cs hcsA hcsB
    obtain ⟨rA, hrA, hrA2⟩ := List.mem_map.mp (hAp.mem_iff.mp hcsA)
    obtain ⟨rB, hrB, hrB2⟩ := List.mem_map.mp (hBp.mem_iff.mp hcsB)
    have hpA : (cellD df.cols rA.2 k ∈ vs : Bool) = true := (List.mem_filter.mp hrA).2
    have hpB : (!(cellD df.cols rB.2 k ∈ vs : Bool)) = true := (List.mem_filter.mp hrB).2
    rw [hrA2] at hpA
    rw [hrB2] at hpB
    rw [hpA] at hpB
    cases hpB
  · refine hAs.imp_of_mem ?_
    intro r s hr hs hge
    obtain ⟨r0, hr0, hr02⟩ := List.mem_map.mp
      ((hAp.mem_iff.mp (List.mem_map_of_mem Prod.snd hr)))
    obtain ⟨s0, hs0, hs02⟩ := List.mem_map.mp
      ((hAp.mem_iff.mp (List.mem_map_of_mem Prod.snd hs)))
    obtain ⟨nr, hnr⟩ := hint r0 (List.mem_filter.mp hr0).1
    obtain ⟨ns, hns⟩ := hint s0 (List.mem_filter.mp hs0).1
    rw [hr02] at hnr
    rw [hs02] at hns
    unfold rowGe at hge
    rw [hnr, hns, Val.leB] at hge
    rw [hnr, hns, valInt, valInt]
    exact of_decide_eq_true hge
  · refine hBs.imp_of_mem ?_
    intro r s hr hs hge
    obtain ⟨r0, hr0, hr02⟩ := List.mem_map.mp
      ((hBp.mem_iff.mp (List.mem_map_of_mem Prod.snd hr)))
    obtain ⟨s0, hs0, hs02⟩ := List.mem_map.mp
      ((hBp.mem_iff.mp (List.mem_map_of_mem Prod.snd hs)))
    obtain ⟨nr, hnr⟩ := hint r0 (List.mem_filter.mp hr0).1
    obtain ⟨ns, hns⟩ := hint s0 (List.mem_filter.mp hs0).1
    rw [hr02] at hnr
    rw [hs02] at hns
    unfold rowGe at hge
    rw [hnr, hns, Val.leB] at hge
    rw [hnr, hns, valInt, valInt]
    exact of_decide_eq_true hge

theorem sexoDF_totals : TotalsAreInt sexoDF := by
  intro r hr
  rcases List.mem_cons.mp hr with rfl | hr
  · exact ⟨3, rfl⟩
  rcases List.mem_cons.mp hr with rfl | hr
  · exact ⟨5, rfl⟩
  rcases List.mem_cons.mp hr with rfl | hr
  · exact ⟨4, rfl⟩
  exact absurd hr (List.not_mem_nil r)

/-- C5 witness: the partition at a concrete three-row frame. -/
theorem C5_filters_partition_witness :
    ("Sexo" ∈ sexoDF.cols) ∧ ("Total" ∈ sexoDF.cols) ∧ sexoDF.WF ∧
    TotalsAreInt sexoDF ∧
    row_filter sexoDF "Sexo" [Val.vstr "H", Val.vstr "M"] = Except.ok
      (DF.mk ["Sexo", "Total"]
        [(0, [Val.vstr "M", Val.vint 5]), (1, [Val.vstr "H", Val.vint 3])]) ∧
    nrow_filter sexoDF "Sexo" [Val.vstr "H", Val.vstr "M"] = Except.ok
      (DF.mk ["Sexo", "Total"] [(0, [Val.vstr "T", Val.vint 4])]) ∧
    List.Perm
      ((DF.mk ["Sexo", "Total"]
        [(0, [Val.vstr "M", Val.vint 5]), (1, [Val.vstr "H", Val.vint 3])]).rows.map Prod.snd ++
       (DF.mk ["Sexo", "Total"] [(0, [Val.vstr "T", Val.vint 4])]).rows.map Prod.snd)
      (sexoDF.rows.map Prod.snd) := by
  refine ⟨by decide, by decide, by unfold DF.WF; decide, sexoDF_totals, by decide, by decide, ?_⟩
  exact (C5_filters_partition sexoDF "Sexo" [Val.vstr "H", Val.vstr "M"] _ _
    (by decide) (by decide) (by unfold DF.WF; decide) sexoDF_totals (by decide) (by decide)).1

/-! ## C3 / C4: cat_var -/

theorem mapM_ok_of_all {α β : Type} (f : α → Except String β) (g : α → β) :
    ∀ l : List α, (∀ x ∈ l, f x = Except.ok (g x)) →
      l.mapM f = Except.ok (l.map g) := by
  intro l
  induction l with
  | nil => intro _; rfl
  | cons a t ih =>
    intro h
    rw [List.mapM_cons, h a (List.mem_cons_self a t),
      ih (fun x hx => h x (List.mem_cons_of_mem a hx))]
    rfl

theorem cat_record_of_mem {df : DF} {col : String} (h : col ∈ df.cols) :
    cat_record df col = Except.ok ((0 : Nat), catCells df col) := by
  unfold cat_record catCells
  rw [if_pos h]

theorem cat_var_eq {df : DF} {C : List String} (hC : ∀ c ∈ C, c ∈ df.cols) :
    cat_var df C = Except.ok (reset_index (sort_values
      (DF.mk ["categorical_variable", "number_of_possible_values", "values"]
        (relabelFrom 0 (C.map (fun col => ((0 : Nat), catCells df col)))))
      "number_of_possible_values")) := by
  unfold cat_var
  rw [mapM_ok_of_all (cat_record df) (fun col => ((0 : Nat), catCells df col)) C
    (fun c hc => cat_record_of_mem (hC c hc))]

theorem cellD_cat_name (a b c : Val) :
    cellD ["categorical_variable", "number_of_possible_values", "values"]
      [a, b, c] "categorical_variable" = a := rfl

theorem cellD_cat_num (a b c : Val) :
    cellD ["categorical_variable", "number_of_possible_values", "values"]
      [a, b, c] "number_of_possible_values" = b := rfl

theorem cellD_cat_values (a b c : Val) :
    cellD ["categorical_variable", "number_of_possible_values", "values"]
      [a, b, c] "values" = c := rfl

/-- Any cell list of a `cat_var` output row is the record of some
requested column. -/
theorem cat_var_row_mem {df : DF} {C : List String} {O : DF}
    (hC : ∀ c ∈ C, c ∈ df.cols) (hO : cat_var df C = Except.ok O) :
    O.cols = ["categorical_variable", "number_of_possible_values", "values"] ∧
    O.rows.length = C.length ∧
    (∀ r ∈ O.rows, ∃ c ∈ C, r.2 = catCells df c) ∧
    O.rows.map Prod.fst = List.range O.rows.length ∧
    List.Sorted (rowGe ["categorical_variable", "number_of_possible_values", "values"]
      "number_of_possible_values") O.rows := by
  rw [cat_var_eq hC] at hO
  have hOeq : O = reset_index (sort_values
      (DF.mk ["categorical_variable", "number_of_possible_values", "values"]
        (relabelFrom 0 (C.map (fun col => ((0 : Nat), catCells df col)))))
      "number_of_possible_values") :=
    (Except.ok.inj hO).symm
  subst hOeq
  refine ⟨rfl, ?_, ?_, ?_, ?_⟩
  · simp only [reset_index, sort_values]
    rw [relabelFrom_length, List.length_insertionSort, relabelFrom_length,
      List.length_map]
  · intro r hr
    simp only [reset_index] at hr
    have hsnd := mem_relabelFrom_snd hr
    have hsnd2 : r.2 ∈ (relabelFrom 0
        (C.map (fun col => ((0 : Nat), catCells df col)))).map Prod.snd :=
      ((sort_values_perm _ "number_of_possible_values").map Prod.snd).mem_iff.mp hsnd
    rw [relabelFrom_map_snd, List.map_map] at hsnd2
    obtain ⟨c, hc, hc2⟩ := List.mem_map.mp hsnd2
    exact ⟨c, hc, hc2.symm⟩
  · simp only [reset_index]
    rw [relabelFrom_map_fst, ← List.range_eq_range', relabelFrom_length]
  · simp only [reset_index]
    exact sorted_relabelFrom (sort_values_sorted
      (DF.mk ["categorical_variable", "number_of_possible_values", "values"]
        (relabelFrom 0 (C.map (fun col => ((0 : Nat), catCells df col)))))
      "number_of_possible_values") 0

/-- C3: on requested columns that all exist, `cat_var` returns one row
per requested column, whose cardinality entry is the number of distinct
values of that column (independently computed as the card of the set of
its values), sorted non-increasing by cardinality, with a contiguous
0-based row index. -/
theorem C3_cat_var_summary (df : DF) (C : List String) (O : DF)
    (hC : ∀ c ∈ C, c ∈ df.cols) (hO : cat_var df C = Except.ok O) :
    O.rows.length = C.length ∧
    (∀ r ∈ O.rows, ∃ c ∈ C,
      cellD O.cols r.2 "categorical_variable" = Val.vstr c ∧
      cellD O.cols r.2 "number_of_possible_values" =
        Val.vint (((column df c).toFinset.card : Int))) ∧
    O.rows.Pairwise (fun r s =>
      valInt (cellD O.cols s.2 "number_of_possible_values") ≤
      valInt (cellD O.cols r.2 "number_of_possible_values")) ∧
    O.rows.map Prod.fst = List.range O.rows.length := by
  obtain ⟨hcols, hlen, hmem, hidx, hsorted⟩ := cat_var_row_mem hC hO
  refine ⟨hlen, ?_, ?_, hidx⟩
  · intro r hr
    obtain ⟨c, hc, hc2⟩ := hmem r hr
    refine ⟨c, hc, ?_, ?_⟩
    · rw [hcols, hc2]
      exact cellD_cat_name _ _ _
    · rw [hcols, hc2]
      unfold catCells
      rw [cellD_cat_num, length_uniqueFirst]
  · refine hsorted.imp_of_mem ?_
    intro r s hr hs hge
    obtain ⟨cr, _, hcr⟩ := hmem r hr
    obtain ⟨cs, _, hcs⟩ := hmem s hs
    unfold rowGe at hge
    rw [hcols, hcr, hcs]
    unfold catCells at hcr hcs ⊢
    rw [hcr, hcs, cellD_cat_num, cellD_cat_num] at hge
    rw [cellD_cat_num, cellD_cat_num]
    rw [Val.leB] at hge
    unfold valInt
    exact of_decide_eq_true hge

/-- C3 witness at a concrete frame. -/
theorem C3_cat_var_summary_witness :
    (∀ c ∈ ["Sexo", "Total"], c ∈ sexoDF.cols) ∧
    cat_var sexoDF ["Sexo", "Total"] = Except.ok
      (DF.mk ["categorical_variable", "number_of_possible_values", "values"]
        [(0, [Val.vstr "Sexo", Val.vint 3,
              Val.vlist [Val.vstr "H", Val.vstr "M", Val.vstr "T"]]),
         (1, [Val.vstr "Total", Val.vint 3,
              Val.vlist [Val.vint 3, Val.vint 5, Val.vint 4]])]) ∧
    (DF.mk ["categorical_variable", "number_of_possible_values", "values"]
        [(0, [Val.vstr "Sexo", Val.vint 3,
              Val.vlist [Val.vstr "H", Val.vstr "M", Val.vstr "T"]]),
         (1, [Val.vstr "Total", Val.vint 3,
              Val.vlist [Val.vint 3, Val.vint 5, Val.vint 4]])] : DF).rows.length =
      (["Sexo", "Total"] : List String).length := by
  refine ⟨by decide, by decide, ?_⟩
  exact (C3_cat_var_summary sexoDF ["Sexo", "Total"] _ (by decide) (by decide)).1

/-! ## C7: groupby_sum -/

theorem findIdx_append_of_none {p : String → Bool} {G : List String}
    (h : ∀ g ∈ G, p g = false) (l : List String) :
    (G ++ l).findIdx p = G.length + l.findIdx p := by
  induction G with
  | nil => simp
  | cons x t ih =>
    rw [List.cons_append, List.findIdx_cons, h x (List.mem_cons_self x t)]
    simp only [cond_false]
    rw [ih (fun g hg => h g (List.mem_cons_of_mem x hg))]
    simp only [List.length_cons]
    omega

/-- Reading the appended aggregation column of a grouped row. -/
theorem cellD_append_last {G : List String} {key : List Val} {v : Val}
    (hlen : key.length = G.length) (hnot : "Total" ∉ G) :
    cellD (G ++ ["Total"]) (key ++ [v]) "Total" = v := by
  unfold cellD
  have hidx : (G ++ ["Total"]).findIdx (· == "Total") = G.length := by
    rw [findIdx_append_of_none (p := (· == "Total"))
      (fun g hg => by
        simp only [beq_eq_false_iff_ne, ne_eq]
        intro hh
        exact hnot (hh ▸ hg)) ["Total"]]
    simp [List.findIdx_cons]
  rw [hidx, ← hlen, List.get?_concat_length]
  rfl

/-- Reading a grouping column of a grouped row recovers the key
component. -/
theorem cellD_append_map {G : List String} {g : String} (rest : List String)
    (f : String → Val) (tail : List Val)
    (hnd : G.Nodup) (hg : g ∈ G) :
    cellD (G ++ rest) (G.map f ++ tail) g = f g := by
  induction G with
  | nil => exact absurd hg (List.not_mem_nil g)
  | cons x t ih =>
    by_cases hxg : x = g
    · subst hxg
      unfold cellD
      rw [List.cons_append, List.findIdx_cons]
      simp
    · have hgt : g ∈ t := (List.mem_cons.mp hg).resolve_left (fun hh => hxg hh.symm)
      have hnd' : t.Nodup := (List.nodup_cons.mp hnd).2
      have ihr := ih hnd' hgt
      unfold cellD at ihr ⊢
      rw [List.cons_append, List.findIdx_cons]
      have hbeq : (x == g) = false := by
        simp only [beq_eq_false_iff_ne, ne_eq]
        exact hxg
      rw [hbeq]
      simp only [List.map_cons, List.cons_append, cond_false]
      rw [List.get?_cons_succ]
      exact ihr

theorem keyOf_append_recover {G : List String} (rest : List String)
    (f : String → Val) (tail : List Val) (lbl : Nat)
    (hnd : G.Nodup) :
    keyOf (G ++ rest) G ((lbl, G.map f ++ tail)) = G.map f := by
  unfold keyOf
  apply List.map_congr_left
  intro g hg
  exact cellD_append_map rest f tail hnd hg

theorem map_snd_comp {α : Type} (f : List Val → α) (l : List Row) :
    l.map (fun r => f r.2) = (l.map Prod.snd).map f := by
  rw [List.map_map]
  rfl

theorem gbKept_eq_rows {df : DF} {G : List String}
    (hnn : ∀ r ∈ df.rows, Val.vnan ∉ keyOf df.cols G r) :
    gbKept df G = df.rows := by
  unfold gbKept
  apply List.filter_eq_self.mpr
  intro r hr
  simpa using hnn r hr

theorem groupby_sum_eq {df : DF} {G : List String}
    (hG : G ≠ []) (hGc : ∀ g ∈ G, g ∈ df.cols) (ht : "Total" ∈ df.cols)
    (hnn : ∀ r ∈ df.rows, Val.vnan ∉ keyOf df.cols G r) :
    groupby_sum df G "Total" "Total" = Except.ok (reset_index (sort_values
      (DF.mk (G ++ ["Total"]) (relabelFrom 0 ((List.insertionSort keyLe
        (uniqueFirst (df.rows.map (keyOf df.cols G)))).map (fun key => ((0 : Nat), key ++
          [Val.vint (((df.rows.filter (fun r => keyOf df.cols G r = key)).map
            (fun r => valInt (cellD df.cols r.2 "Total"))).sum)])))))
      "Total")) := by
  unfold groupby_sum
  rw [if_neg hG, if_pos ⟨hGc, ht⟩]
  simp only [gbKept_eq_rows hnn]
  rw [if_pos]
  exact List.mem_append_right G (List.mem_cons_self _ _)

/-- The appended sums of the grouped rows add up to the total of the
aggregation column over the whole input (mass conservation). -/
theorem grouped_sum (df : DF) (G : List String) (htG : "Total" ∉ G) :
    (((List.insertionSort keyLe (uniqueFirst (df.rows.map (keyOf df.cols G)))).map
      (fun key => ((0 : Nat), key ++ [Val.vint (((df.rows.filter
      (fun r => keyOf df.cols G r = key)).map
      (fun r => valInt (cellD df.cols r.2 "Total"))).sum)]))).map
      (fun r => valInt (cellD (G ++ ["Total"]) r.2 "Total"))).sum =
    (df.rows.map (fun r => valInt (cellD df.cols r.2 "Total"))).sum := by
  rw [List.map_map]
  rw [List.map_congr_left (g := (fun key => ((df.rows.filter (fun r => keyOf df.cols G r = key)).map
      (fun r => valInt (cellD df.cols r.2 "Total"))).sum)) ?hcong]
  case hcong =>
    intro key hk
    have hk2 : key ∈ df.rows.map (keyOf df.cols G) :=
      mem_uniqueFirst.mp ((List.mem_insertionSort keyLe).mp hk)
    obtain ⟨r0, _, hr0⟩ := List.mem_map.mp hk2
    have hlen : key.length = G.length := by
      rw [← hr0]
      unfold keyOf
      rw [List.length_map]
    simp only [Function.comp]
    rw [cellD_append_last hlen htG]
    rfl
  rw [((List.perm_insertionSort keyLe
    (uniqueFirst (df.rows.map (keyOf df.cols G)))).map (fun key => ((df.rows.filter (fun r => keyOf df.cols G r = key)).map
      (fun r => valInt (cellD df.cols r.2 "Total"))).sum)).sum_eq]
  exact sum_partition (keyOf df.cols G) (fun r => valInt (cellD df.cols r.2 "Total"))
    (uniqueFirst (df.rows.map (keyOf df.cols G))) df.rows (nodup_uniqueFirst _)
    (fun r hr => mem_uniqueFirst.mpr (List.mem_map_of_mem _ hr))

/-- C7 (amended): on tables whose grouping-column cells are all
non-missing (pandas `groupby` silently drops rows whose group key
contains NaN, so the original unconditional claim fails on them),
`groupby_sum` conserves the aggregated mass: the sum of the aggregation
column over the output equals its sum over the input; every output group
key is distinct; and no key absent from the input appears. -/
theorem C7_groupby_sum_conservation (df : DF) (G : List String) (O : DF)
    (hG : G ≠ []) (hGnd : G.Nodup) (hGc : ∀ g ∈ G, g ∈ df.cols)
    (ht : "Total" ∈ df.cols) (htG : "Total" ∉ G) (hint : TotalsAreInt df)
    (hnn : ∀ r ∈ df.rows, Val.vnan ∉ keyOf df.cols G r)
    (hO : groupby_sum df G "Total" "Total" = Except.ok O) :
    (O.rows.map (fun r => valInt (cellD O.cols r.2 "Total"))).sum =
      (df.rows.map (fun r => valInt (cellD df.cols r.2 "Total"))).sum ∧
    (O.rows.map (fun r => keyOf O.cols G r)).Nodup ∧
    (∀ r ∈ O.rows, keyOf O.cols G r ∈ df.rows.map (keyOf df.cols G)) := by
  rw [groupby_sum_eq hG hGc ht hnn] at hO
  have hOeq : O = reset_index (sort_values
      (DF.mk (G ++ ["Total"]) (relabelFrom 0 ((List.insertionSort keyLe (uniqueFirst (df.rows.map (keyOf df.cols G)))).map
        (fun key => ((0 : Nat), key ++ [Val.vint (((df.rows.filter
      (fun r => keyOf df.cols G r = key)).map
      (fun r => valInt (cellD df.cols r.2 "Total"))).sum)])))))
      "Total") := (Except.ok.inj hO).symm
  have hOcols : O.cols = G ++ ["Total"] := by rw [hOeq]; rfl
  have hsnd : List.Perm (O.rows.map Prod.snd)
      (((List.insertionSort keyLe (uniqueFirst (df.rows.map (keyOf df.cols G)))).map
        (fun key => ((0 : Nat), key ++ [Val.vint (((df.rows.filter
      (fun r => keyOf df.cols G r = key)).map
      (fun r => valInt (cellD df.cols r.2 "Total"))).sum)]))).map Prod.snd) := by
    rw [hOeq]
    simp only [reset_index]
    rw [relabelFrom_map_snd]
    have hp := (sort_values_perm
      (DF.mk (G ++ ["Total"]) (relabelFrom 0 ((List.insertionSort keyLe (uniqueFirst (df.rows.map (keyOf df.cols G)))).map
        (fun key => ((0 : Nat), key ++ [Val.vint (((df.rows.filter
      (fun r => keyOf df.cols G r = key)).map
      (fun r => valInt (cellD df.cols r.2 "Total"))).sum)])))))
      "Total").map Prod.snd
    rw [show (DF.mk (G ++ ["Total"]) (relabelFrom 0 ((List.insertionSort keyLe (uniqueFirst (df.rows.map (keyOf df.cols G)))).map
        (fun key => ((0 : Nat), key ++ [Val.vint (((df.rows.filter
      (fun r => keyOf df.cols G r = key)).map
      (fun r => valInt (cellD df.cols r.2 "Total"))).sum)]))))).rows = relabelFrom 0 ((List.insertionSort keyLe (uniqueFirst (df.rows.map (keyOf df.cols G)))).map
        (fun key => ((0 : Nat), key ++ [Val.vint (((df.rows.filter
      (fun r => keyOf df.cols G r = key)).map
      (fun r => valInt (cellD df.cols r.2 "Total"))).sum)]))) from rfl, relabelFrom_map_snd] at hp
    exact hp
  have hcellmem : ∀ cs ∈ O.rows.map Prod.snd, ∃ key ∈ (List.insertionSort keyLe (uniqueFirst (df.rows.map (keyOf df.cols G)))),
      cs = key ++ [Val.vint ((fun key => ((df.rows.filter (fun r => keyOf df.cols G r = key)).map
      (fun r => valInt (cellD df.cols r.2 "Total"))).sum) key)] ∧ key = G.map (fun g => cellD (G ++ ["Total"]) cs g) := by
    intro cs hcs
    have hcs2 := hsnd.mem_iff.mp hcs
    rw [List.map_map] at hcs2
    obtain ⟨key, hkey, hkey2⟩ := List.mem_map.mp hcs2
    have hk2 : key ∈ df.rows.map (keyOf df.cols G) :=
      mem_uniqueFirst.mp ((List.mem_insertionSort keyLe).mp hkey)
    obtain ⟨r0, _, hr0⟩ := List.mem_map.mp hk2
    refine ⟨key, hkey, hkey2.symm, ?_⟩
    rw [← hkey2]
    show key = G.map (fun g => cellD (G ++ ["Total"])
      (Prod.snd ((fun key => ((0 : Nat), key ++ [Val.vint ((fun key => ((df.rows.filter (fun r => keyOf df.cols G r = key)).map
      (fun r => valInt (cellD df.cols r.2 "Total"))).sum) key)])) key)) g)
    conv_lhs => rw [← hr0]
    unfold keyOf at hr0 ⊢
    apply List.map_congr_left
    intro g hg
    rw [← hr0]
    exact (cellD_append_map ["Total"] (fun g => cellD df.cols r0.2 g)
      [Val.vint ((fun key => ((df.rows.filter (fun r => keyOf df.cols G r = key)).map
      (fun r => valInt (cellD df.cols r.2 "Total"))).sum) (G.map (fun g => cellD df.cols r0.2 g)))] hGnd hg).symm
  refine ⟨?_, ?_, ?_⟩
  · rw [hOcols,
      map_snd_comp (fun cs => valInt (cellD (G ++ ["Total"]) cs "Total")) O.rows,
      (hsnd.map (fun cs => valInt (cellD (G ++ ["Total"]) cs "Total"))).sum_eq,
      ← map_snd_comp (fun cs => valInt (cellD (G ++ ["Total"]) cs "Total"))]
    exact grouped_sum df G htG
  · rw [hOcols]
    have hform : O.rows.map (fun r => keyOf (G ++ ["Total"]) G r) =
        (O.rows.map Prod.snd).map (fun cs => G.map (fun g => cellD (G ++ ["Total"]) cs g)) := by
      rw [List.map_map]
      rfl
    rw [hform]
    have hnd2 := (hsnd.map (fun cs => G.map (fun g => cellD (G ++ ["Total"]) cs g))).nodup_iff
    rw [hnd2]
    rw [List.map_map, List.map_map]
    have hid : ((List.insertionSort keyLe (uniqueFirst (df.rows.map (keyOf df.cols G)))).map (((fun cs => G.map (fun g => cellD (G ++ ["Total"]) cs g)) ∘
        Prod.snd) ∘ (fun key => ((0 : Nat), key ++ [Val.vint (((df.rows.filter
      (fun r => keyOf df.cols G r = key)).map
      (fun r => valInt (cellD df.cols r.2 "Total"))).sum)])))) = (List.insertionSort keyLe (uniqueFirst (df.rows.map (keyOf df.cols G)))) := by
      rw [show ((List.insertionSort keyLe (uniqueFirst (df.rows.map (keyOf df.cols G)))).map (((fun cs => G.map (fun g => cellD (G ++ ["Total"]) cs g)) ∘
        Prod.snd) ∘ (fun key => ((0 : Nat), key ++ [Val.vint (((df.rows.filter
      (fun r => keyOf df.cols G r = key)).map
      (fun r => valInt (cellD df.cols r.2 "Total"))).sum)])))) = ((List.insertionSort keyLe (uniqueFirst (df.rows.map (keyOf df.cols G)))).map (fun key => G.map (fun g => cellD (G ++ ["Total"])
          (key ++ [Val.vint ((fun key => ((df.rows.filter (fun r => keyOf df.cols G r = key)).map
      (fun r => valInt (cellD df.cols r.2 "Total"))).sum) key)]) g))) from rfl]
      have hcong2 : ∀ key ∈ (List.insertionSort keyLe (uniqueFirst (df.rows.map (keyOf df.cols G)))), G.map (fun g => cellD (G ++ ["Total"])
          (key ++ [Val.vint ((fun key => ((df.rows.filter (fun r => keyOf df.cols G r = key)).map
      (fun r => valInt (cellD df.cols r.2 "Total"))).sum) key)]) g) = key := by
        intro key hkey
        have hk2 : key ∈ df.rows.map (keyOf df.cols G) :=
          mem_uniqueFirst.mp ((List.mem_insertionSort keyLe).mp hkey)
        obtain ⟨r0, _, hr0⟩ := List.mem_map.mp hk2
        conv_rhs => rw [← hr0]
        unfold keyOf at hr0 ⊢
        apply List.map_congr_left
        intro g hg
        rw [← hr0]
        exact cellD_append_map ["Total"] (fun g => cellD df.cols r0.2 g)
          [Val.vint ((fun key => ((df.rows.filter (fun r => keyOf df.cols G r = key)).map
      (fun r => valInt (cellD df.cols r.2 "Total"))).sum) (G.map (fun g => cellD df.cols r0.2 g)))] hGnd hg
      rw [List.map_congr_left hcong2]
      simp
    rw [hid]
    exact (List.perm_insertionSort keyLe _).nodup_iff.mpr
      (nodup_uniqueFirst (df.rows.map (keyOf df.cols G)))
  · intro r hr
    have hcs : r.2 ∈ O.rows.map Prod.snd := List.mem_map_of_mem Prod.snd hr
    obtain ⟨key, hkey, hcs2, hkform⟩ := hcellmem r.2 hcs
    have hkO : keyOf O.cols G r = key := by
      rw [hOcols]
      unfold keyOf
      exact hkform.symm
    rw [hkO]
    exact mem_uniqueFirst.mp ((List.mem_insertionSort keyLe).mp hkey)

theorem sexoDupDF_totals : TotalsAreInt sexoDupDF := by
  intro r hr
  rcases List.mem_cons.mp hr with rfl | hr
  · exact ⟨3, rfl⟩
  rcases List.mem_cons.mp hr with rfl | hr
  · exact ⟨5, rfl⟩
  rcases List.mem_cons.mp hr with rfl | hr
  · exact ⟨4, rfl⟩
  exact absurd hr (List.not_mem_nil r)

/-- C7 counterexample: on a well-formed, integer-totalled table whose
only row carries a missing grouping key, `groupby_sum` returns an empty
table, so the output sum is 0 while the input sum is 5 - `groupby` drops
NaN-keyed rows and the unconditional mass-conservation claim fails. -/
theorem C7_groupby_counterexample :
    nanGroupDF.WF ∧ TotalsAreInt nanGroupDF ∧
    groupby_sum nanGroupDF ["G"] "Total" "Total" =
      Except.ok (DF.mk ["G", "Total"] []) ∧
    ((DF.mk ["G", "Total"] ([] : List Row)).rows.map (fun r =>
      valInt (cellD (DF.mk ["G", "Total"] ([] : List Row)).cols r.2 "Total"))).sum ≠
    (nanGroupDF.rows.map (fun r =>
      valInt (cellD nanGroupDF.cols r.2 "Total"))).sum := by
  refine ⟨by unfold DF.WF; decide, ?_, by decide, by decide⟩
  intro r hr
  rcases List.mem_cons.mp hr with rfl | hr
  · exact ⟨5, rfl⟩
  · exact absurd hr (List.not_mem_nil r)

/-- C7 witness: grouping a concrete frame by `"Sexo"` sums 3+4 for `"H"`
and conserves the total mass 3+5+4. -/
theorem C7_groupby_sum_conservation_witness :
    (["Sexo"] : List String) ≠ [] ∧ (["Sexo"] : List String).Nodup ∧
    (∀ g ∈ (["Sexo"] : List String), g ∈ sexoDupDF.cols) ∧
    ("Total" ∈ sexoDupDF.cols) ∧ ("Total" ∉ (["Sexo"] : List String)) ∧
    (∀ r ∈ sexoDupDF.rows, Val.vnan ∉ keyOf sexoDupDF.cols ["Sexo"] r) ∧
    groupby_sum sexoDupDF ["Sexo"] "Total" "Total" = Except.ok
      (DF.mk ["Sexo", "Total"]
        [(0, [Val.vstr "H", Val.vint 7]), (1, [Val.vstr "M", Val.vint 5])]) ∧
    ((DF.mk ["Sexo", "Total"]
        [(0, [Val.vstr "H", Val.vint 7]), (1, [Val.vstr "M", Val.vint 5])] : DF).rows.map
      (fun r => valInt (cellD (DF.mk ["Sexo", "Total"]
        [(0, [Val.vstr "H", Val.vint 7]), (1, [Val.vstr "M", Val.vint 5])] : DF).cols
          r.2 "Total"))).sum =
      (sexoDupDF.rows.map (fun r => valInt (cellD sexoDupDF.cols r.2 "Total"))).sum := by
  refine ⟨by decide, by decide, by decide, by decide, by decide, by decide,
    by decide, ?_⟩
  exact (C7_groupby_sum_conservation sexoDupDF ["Sexo"] _ (by decide) (by decide)
    (by decide) (by decide) (by decide) sexoDupDF_totals (by decide) (by decide)).1

/-! ## C8: pivot_table -/

theorem pvKept_eq_rows {df : DF} {col x_axis : String}
    (hnn : ∀ r ∈ df.rows,
      cellD df.cols r.2 x_axis ≠ Val.vnan ∧ cellD df.cols r.2 col ≠ Val.vnan) :
    pvKept df col x_axis = df.rows := by
  unfold pvKept
  apply List.filter_eq_self.mpr
  intro r hr
  have h2 := hnn r hr
  simp [h2.1, h2.2]

theorem pivot_table_eq {df : DF} {col x_axis : String}
    (hc : col ∈ df.cols) (hx : x_axis ∈ df.cols) (hv : "Total" ∈ df.cols)
    (hnn : ∀ r ∈ df.rows,
      cellD df.cols r.2 x_axis ≠ Val.vnan ∧ cellD df.cols r.2 col ≠ Val.vnan) :
    pivot_table df col x_axis "Total" = Except.ok
      (Wide.mk x_axis
        (List.insertionSort valLe (uniqueFirst (column df x_axis)))
        (List.insertionSort valLe (uniqueFirst (column df col)))
        ((List.insertionSort valLe (uniqueFirst (column df x_axis))).map
          (fun x => (List.insertionSort valLe (uniqueFirst (column df col))).map
            (fun c =>
              if hm : df.rows.filter (fun r =>
                  cellD df.cols r.2 x_axis = x ∧ cellD df.cols r.2 col = c) = [] then
                (none : Option Int)
              else
                some (((df.rows.filter (fun r =>
                    cellD df.cols r.2 x_axis = x ∧ cellD df.cols r.2 col = c)).map
                  (fun r => valInt (cellD df.cols r.2 "Total"))).sum))))) := by
  unfold pivot_table
  rw [if_pos ⟨hc, hx, hv⟩]
  simp only [pvKept_eq_rows hnn]
  rfl

/-- Dropping the missing cells of one pivot row and summing equals the
sum over the spread values of the per-pair sums (an empty pair
contributes zero either way). -/
theorem filterMap_cells_sum (df : DF) (col x_axis : String) (x : Val)
    (cs : List Val) :
    ((cs.map (fun c =>
      if hm : df.rows.filter (fun r =>
        cellD df.cols r.2 x_axis = x ∧ cellD df.cols r.2 col = c) = [] then
        (none : Option Int)
      else
        some (((df.rows.filter (fun r =>
        cellD df.cols r.2 x_axis = x ∧ cellD df.cols r.2 col = c)).map
          (fun r => valInt (cellD df.cols r.2 "Total"))).sum))).filterMap id).sum =
    (cs.map (fun c => ((df.rows.filter (fun r =>
        cellD df.cols r.2 x_axis = x ∧ cellD df.cols r.2 col = c)).map
      (fun r => valInt (cellD df.cols r.2 "Total"))).sum)).sum := by
  induction cs with
  | nil => rfl
  | cons c t ih =>
    by_cases hm : df.rows.filter (fun r =>
        cellD df.cols r.2 x_axis = x ∧ cellD df.cols r.2 col = c) = []
    · rw [List.map_cons, dif_pos hm, List.map_cons, List.sum_cons, hm]
      rw [List.filterMap_cons_none rfl]
      rw [ih]
      simp
    · rw [List.map_cons, dif_neg hm, List.map_cons, List.sum_cons]
      generalize ((df.rows.filter (fun r =>
        cellD df.cols r.2 x_axis = x ∧ cellD df.cols r.2 col = c)).map
          (fun r => valInt (cellD df.cols r.2 "Total"))).sum = S
      rw [List.filterMap_cons_some (show id (some S) = some S from rfl),
        List.sum_cons, ih]

/-- C8 (amended): on tables whose row-axis and spread cells are all
non-missing (pandas `pivot_table` silently drops rows whose index or
column key is NaN, so the original claim fails on them), with every
(row-axis value, spread value) combination present, `pivot_table`
produces one row per distinct row-axis value and one column per distinct
spread value, each cell the sum of the value column over the matching
rows, and summing all non-missing cells recovers the sum of the value
column over the whole input. -/
theorem C8_pivot_table_mass (df : DF) (col x_axis : String) (W : Wide)
    (hc : col ∈ df.cols) (hx : x_axis ∈ df.cols) (hv : "Total" ∈ df.cols)
    (hint : TotalsAreInt df)
    (hnn : ∀ r ∈ df.rows,
      cellD df.cols r.2 x_axis ≠ Val.vnan ∧ cellD df.cols r.2 col ≠ Val.vnan)
    (hcomb : ∀ x ∈ column df x_axis, ∀ c ∈ column df col,
      ∃ r ∈ df.rows, cellD df.cols r.2 x_axis = x ∧ cellD df.cols r.2 col = c)
    (hW : pivot_table df col x_axis "Total" = Except.ok W) :
    (W.xvals.Nodup ∧ (∀ v, v ∈ W.xvals ↔ v ∈ column df x_axis)) ∧
    (W.spread.Nodup ∧ (∀ v, v ∈ W.spread ↔ v ∈ column df col)) ∧
    W.cells = W.xvals.map (fun x => W.spread.map (fun c =>
      some (((df.rows.filter (fun r =>
        cellD df.cols r.2 x_axis = x ∧ cellD df.cols r.2 col = c)).map
        (fun r => valInt (cellD df.cols r.2 "Total"))).sum))) ∧
    (W.cells.map (fun rowc => (rowc.filterMap id).sum)).sum =
      (df.rows.map (fun r => valInt (cellD df.cols r.2 "Total"))).sum := by
  rw [pivot_table_eq hc hx hv hnn] at hW
  have hWeq := (Except.ok.inj hW).symm
  subst hWeq
  have hxs : ∀ v, v ∈ List.insertionSort valLe (uniqueFirst (column df x_axis)) ↔
      v ∈ column df x_axis := by
    intro v
    rw [List.mem_insertionSort valLe, mem_uniqueFirst]
  have hcs : ∀ v, v ∈ List.insertionSort valLe (uniqueFirst (column df col)) ↔
      v ∈ column df col := by
    intro v
    rw [List.mem_insertionSort valLe, mem_uniqueFirst]
  refine ⟨⟨?_, hxs⟩, ⟨?_, hcs⟩, ?_, ?_⟩
  · exact (List.perm_insertionSort valLe _).nodup_iff.mpr (nodup_uniqueFirst _)
  · exact (List.perm_insertionSort valLe _).nodup_iff.mpr (nodup_uniqueFirst _)
  · apply List.map_congr_left
    intro x hxmem
    apply List.map_congr_left
    intro c hcmem
    have hne : df.rows.filter (fun r =>
        cellD df.cols r.2 x_axis = x ∧ cellD df.cols r.2 col = c) ≠ [] := by
      obtain ⟨r, hr, hrx, hrc⟩ := hcomb x ((hxs x).mp hxmem) c ((hcs c).mp hcmem)
      exact List.ne_nil_of_mem (List.mem_filter.mpr ⟨hr, by simp [hrx, hrc]⟩)
    rw [dif_neg hne]
  · rw [List.map_map]
    have hstep : ∀ x ∈ List.insertionSort valLe (uniqueFirst (column df x_axis)),
        ((fun rowc => (List.filterMap id rowc).sum) ∘ (fun x =>
          (List.insertionSort valLe (uniqueFirst (column df col))).map
            (fun c =>
              if hm : df.rows.filter (fun r =>
        cellD df.cols r.2 x_axis = x ∧ cellD df.cols r.2 col = c) = [] then
                (none : Option Int)
              else
                some (((df.rows.filter (fun r =>
        cellD df.cols r.2 x_axis = x ∧ cellD df.cols r.2 col = c)).map
                  (fun r => valInt (cellD df.cols r.2 "Total"))).sum)))) x =
        ((df.rows.filter (fun r => cellD df.cols r.2 x_axis = x)).map
          (fun r => valInt (cellD df.cols r.2 "Total"))).sum := by
      intro x _
      simp only [Function.comp]
      rw [filterMap_cells_sum df col x_axis x]
      have hinner : ∀ c ∈ List.insertionSort valLe (uniqueFirst (column df col)),
          ((df.rows.filter (fun r =>
        cellD df.cols r.2 x_axis = x ∧ cellD df.cols r.2 col = c)).map
            (fun r => valInt (cellD df.cols r.2 "Total"))).sum =
          (((df.rows.filter (fun r => cellD df.cols r.2 x_axis = x)).filter
            (fun r => cellD df.cols r.2 col = c)).map
            (fun r => valInt (cellD df.cols r.2 "Total"))).sum := by
        intro c _
        rw [List.filter_filter]
        congr 1
        congr 1
        apply List.filter_congr
        intro r _
        by_cases hrx : cellD df.cols r.2 x_axis = x <;>
          by_cases hrc : cellD df.cols r.2 col = c <;>
          simp [hrx, hrc]
      rw [List.map_congr_left hinner]
      rw [((List.perm_insertionSort valLe
        (uniqueFirst (column df col))).map _).sum_eq]
      exact sum_partition (fun r => cellD df.cols r.2 col)
        (fun r => valInt (cellD df.cols r.2 "Total"))
        (uniqueFirst (column df col))
        (df.rows.filter (fun r => cellD df.cols r.2 x_axis = x))
        (nodup_uniqueFirst _)
        (fun r hr => mem_uniqueFirst.mpr
          (List.mem_map_of_mem _ (List.mem_filter.mp hr).1))
    rw [List.map_congr_left hstep]
    rw [((List.perm_insertionSort valLe
      (uniqueFirst (column df x_axis))).map _).sum_eq]
    exact sum_partition (fun r => cellD df.cols r.2 x_axis)
      (fun r => valInt (cellD df.cols r.2 "Total"))
      (uniqueFirst (column df x_axis)) df.rows
      (nodup_uniqueFirst _)
      (fun r hr => mem_uniqueFirst.mpr (List.mem_map_of_mem _ hr))

theorem periodoDF_totals : TotalsAreInt periodoDF := by
  intro r hr
  rcases List.mem_cons.mp hr with rfl | hr
  · exact ⟨1, rfl⟩
  rcases List.mem_cons.mp hr with rfl | hr
  · exact ⟨2, rfl⟩
  rcases List.mem_cons.mp hr with rfl | hr
  · exact ⟨3, rfl⟩
  rcases List.mem_cons.mp hr with rfl | hr
  · exact ⟨4, rfl⟩
  exact absurd hr (List.not_mem_nil r)

/-- C8 counterexample: on a well-formed, integer-totalled table whose
only row carries a missing row-axis key, every (row-axis value, spread
value) combination occurring in the table is present, yet `pivot_table`
returns an empty pivot: the non-missing-cell sum is 0 while the input
sum of the value column is 5 - `pivot_table` drops NaN-keyed rows and
the claimed mass conservation fails. -/
theorem C8_pivot_counterexample :
    nanPivotDF.WF ∧ TotalsAreInt nanPivotDF ∧
    (∀ x ∈ column nanPivotDF "Periodo", ∀ c ∈ column nanPivotDF "Sexo",
      ∃ r ∈ nanPivotDF.rows, cellD nanPivotDF.cols r.2 "Periodo" = x ∧
        cellD nanPivotDF.cols r.2 "Sexo" = c) ∧
    pivot_table nanPivotDF "Sexo" "Periodo" "Total" =
      Except.ok (Wide.mk "Periodo" [] [] []) ∧
    ((Wide.mk "Periodo" [] [] ([] : List (List (Option Int)))).cells.map
      (fun rowc => (rowc.filterMap id).sum)).sum ≠
    (nanPivotDF.rows.map (fun r =>
      valInt (cellD nanPivotDF.cols r.2 "Total"))).sum := by
  refine ⟨by unfold DF.WF; decide, ?_, by decide, by decide, by decide⟩
  intro r hr
  rcases List.mem_cons.mp hr with rfl | hr
  · exact ⟨5, rfl⟩
  · exact absurd hr (List.not_mem_nil r)

/-- C8 witness: pivoting a complete 2×2 frame conserves the mass
1+2+3+4. -/
theorem C8_pivot_table_mass_witness :
    ("Sexo" ∈ periodoDF.cols) ∧ ("Periodo" ∈ periodoDF.cols) ∧
    ("Total" ∈ periodoDF.cols) ∧
    (∀ r ∈ periodoDF.rows, cellD periodoDF.cols r.2 "Periodo" ≠ Val.vnan ∧
      cellD periodoDF.cols r.2 "Sexo" ≠ Val.vnan) ∧
    (∀ x ∈ column periodoDF "Periodo", ∀ c ∈ column periodoDF "Sexo",
      ∃ r ∈ periodoDF.rows, cellD periodoDF.cols r.2 "Periodo" = x ∧
        cellD periodoDF.cols r.2 "Sexo" = c) ∧
    pivot_table periodoDF "Sexo" "Periodo" "Total" = Except.ok
      (Wide.mk "Periodo" [Val.vstr "2019", Val.vstr "2020"]
        [Val.vstr "H", Val.vstr "M"]
        [[some 1, some 2], [some 3, some 4]]) ∧
    ((Wide.mk "Periodo" [Val.vstr "2019", Val.vstr "2020"]
        [Val.vstr "H", Val.vstr "M"]
        [[some 1, some 2], [some 3, some 4]] : Wide).cells.map
      (fun rowc => (rowc.filterMap id).sum)).sum =
      (periodoDF.rows.map (fun r => valInt (cellD periodoDF.cols r.2 "Total"))).sum := by
  refine ⟨by decide, by decide, by decide, by decide, by decide, by decide, ?_⟩
  exact (C8_pivot_table_mass periodoDF "Sexo" "Periodo" _ (by decide) (by decide)
    (by decide) periodoDF_totals (by decide) (by decide) (by decide)).2.2.2

end DeadlyViz
